import Mathlib

/-!
Shallow embedding of the radar-logger consumer pipeline
(`src/main.py` of maciejwie/radar-logger).

Numeric readings (speeds, distances, calibration parameters) are modelled
as rationals; Python `round(x, 1)` becomes rounding to the nearest tenth.
Wall-clock timestamps, which the source keeps as second-resolution
formatted strings and compares by parsing back to epoch seconds, are
modelled directly as epoch seconds (`Nat`); the string format is
order-isomorphic to the numeric value at second resolution.

The consumer thread `consume_data_queue` is modelled as a fold over a
finite list of loop iterations.  Each iteration carries the wall-clock
second observed at the top of the loop body together with the outcome of
the `queue.get` call: a dequeued detection, the shutdown sentinel, a
`queue.Empty` timeout, or a `KeyboardInterrupt`.  File writes are
modelled as an ordered log of write records; a second run function
threads a budget of successful writes to model an output stream that
starts failing (e.g. permission denied), since the source has no handler
for such exceptions inside the consumer loop.
-/

namespace RadarLogger

/-- Python `round(x, 1)`: round to one decimal place. -/
def round1 (x : ℚ) : ℚ := (round (10 * x) : ℤ) / 10

/-- A decoded radar event as dequeued by the consumer: `entry.threat_id`,
`entry.speed`, `entry.distance`. -/
structure Detection where
  threat_id : Nat
  speed : ℚ
  distance : ℚ
deriving DecidableEq

/-- One element of a window list: the tuple
`(timestamp, calib_speed, entry.distance)` appended at line 157 of the
source. -/
structure Sample where
  ts : Nat
  speed : ℚ
  dist : ℚ
deriving DecidableEq

/-- The record built by `calculate_summary` before the caller adds the
`threat_id`, `calibration` and `dist_thresholds` fields. -/
structure Summary where
  timestamp : Nat
  max : ℚ
  max95 : ℚ
  average : ℚ
  data : List (ℚ × ℚ)
deriving DecidableEq

/-- Python `sorted(speeds, reverse=True)`: stable descending sort. -/
def sortedDesc (l : List ℚ) : List ℚ := l.mergeSort (fun a b => decide (b ≤ a))

/-- Embedding of `calculate_summary` (source lines 89-104).  The source
raises on an empty argument (`sorted_speeds[0]`, `max` of an empty list,
division by zero); the embedding returns `none` there. -/
def calculate_summary (data : List Sample) : Option Summary :=
  let speeds := data.map Sample.speed
  let sorted_speeds := sortedDesc speeds
  match sorted_speeds.head? with
  | none => none
  | some max_speed =>
    let num_samples_95 := sorted_speeds.length / 20
    match (sorted_speeds.drop num_samples_95).max? with
    | none => none
    | some max_speed_95 =>
      match (data.map Sample.ts).min? with
      | none => none
      | some earliest_timestamp =>
        some { timestamp := earliest_timestamp
               max := max_speed
               max95 := max_speed_95
               average := round1 (speeds.sum / (speeds.length : ℚ))
               data := data.map (fun d => (d.speed, d.dist)) }

/-- Resolved configuration of the consumer thread (all scalars present). -/
structure Config where
  print_stream : Bool
  write_stream : Bool
  calib_slope : ℚ
  calib_offset : ℚ
  dist_low : ℚ
  dist_high : ℚ
deriving DecidableEq

/-- Outcome of one `data_queue.get(timeout=1.0)` call. -/
inductive QEvent where
  | entry (e : Detection)
  | sentinelEv
  | emptyEv
  | interruptEv
deriving DecidableEq

/-- Mutable state of the consumer loop: the insertion-ordered dictionary
`data_dict` (modelled as an association list, new keys appended at the
end exactly as Python dicts order them) and `last_timestamp`. -/
structure ConsumerState where
  data_dict : List (Nat × List Sample)
  last_timestamp : Nat
deriving DecidableEq

/-- Append a sample under a key, creating the key at the end of the
dictionary if absent (source lines 154-157). -/
def dictAppend (d : List (Nat × List Sample)) (k : Nat) (s : Sample) :
    List (Nat × List Sample) :=
  match d with
  | [] => [(k, [s])]
  | kv :: rest =>
    if kv.1 = k then (kv.1, kv.2 ++ [s]) :: rest else kv :: dictAppend rest k s

/-- One record appended to a file: a summary record appended to
`data.json` (identified by the window it was computed from) or a trace
line appended to `data_stream.txt`. -/
inductive WriteRec where
  | summaryRec (threat_id : Nat) (data : List Sample)
  | traceRec (ts : Nat) (e : Detection)
deriving DecidableEq

/-- Summary records carried by a write log, in order. -/
def flushedOf (log : List WriteRec) : List (Nat × List Sample) :=
  log.filterMap (fun r =>
    match r with
    | .summaryRec t d => some (t, d)
    | .traceRec _ _ => none)

/-- Trace lines carried by a write log, in order. -/
def tracedOf (log : List WriteRec) : List (Nat × Detection) :=
  log.filterMap (fun r =>
    match r with
    | .summaryRec _ _ => none
    | .traceRec t e => some (t, e))

/-- Content of one line of `data.json`: the summary dict after the caller
adds `threat_id`, `calibration` and `dist_thresholds` (source lines
131-134 and 175-178). -/
structure SummaryRecord where
  summary : Option Summary
  threat_id : Nat
  calibration : ℚ × ℚ
  dist_thresholds : ℚ × ℚ
deriving DecidableEq

/-- The durable output lines produced by a write log under a given
configuration. -/
def summaryRecords (cfg : Config) (log : List WriteRec) : List SummaryRecord :=
  (flushedOf log).map (fun td =>
    { summary := calculate_summary td.2
      threat_id := td.1
      calibration := (cfg.calib_slope, cfg.calib_offset)
      dist_thresholds := (cfg.dist_low, cfg.dist_high) })

/-- Staleness test of the sweep (source lines 170-173): the newest
timestamp of the window, `data[-1][0]`, is more than 10 seconds older
than the current second.  The source would raise on an empty window
(`data[-1]`); that state is unreachable (see the nonemptiness
invariant), and the embedding treats it as not stale. -/
def staleCheck (now : Nat) (data : List Sample) : Bool :=
  match data.getLast? with
  | none => false
  | some d => decide ((10 : ℤ) < (now : ℤ) - (d.ts : ℤ))

/-- The once-per-second staleness sweep (source lines 164-184): when the
observed second differs from the previously checked one, every stale
window is summarized, written and removed, in dictionary order. -/
def runSweep (ts : Nat) (st : ConsumerState) :
    ConsumerState × List WriteRec :=
  if ts = st.last_timestamp then (st, [])
  else
    ({ data_dict := st.data_dict.filter (fun kv => !staleCheck ts kv.2)
       last_timestamp := ts },
     (st.data_dict.filter (fun kv => staleCheck ts kv.2)).map
       (fun kv => .summaryRec kv.1 kv.2))

/-- The shutdown flush on receiving the sentinel (source lines 129-138):
every window is summarized and written, in dictionary order. -/
def flushAll (d : List (Nat × List Sample)) : List WriteRec :=
  d.map (fun kv => .summaryRec kv.1 kv.2)

/-- Why the consumer loop stopped (or that the supplied iterations ran
out while it would keep looping). -/
inductive TermReason where
  | ranOut
  | sentinelHit
  | interrupted
  | configMissing
  | crashed
deriving DecidableEq

/-- Output of a single loop iteration: records appended to files and
lines printed to the console. -/
structure StepOut where
  log : List WriteRec
  printed : List (Nat × Detection)
deriving DecidableEq

/-- Result of a single loop iteration. -/
inductive StepRes where
  | next (st : ConsumerState) (out : StepOut)
  | stop (reason : TermReason) (st : ConsumerState) (out : StepOut)
deriving DecidableEq

/-- Acceptance test of the distance filter (source line 142, negated). -/
def accepts (cfg : Config) (e : Detection) : Bool :=
  !(decide (e.distance < cfg.dist_low) || decide (e.distance > cfg.dist_high))

/-- The calibrated sample a detection dequeued at second `ts` turns into
(source lines 146 and 157). -/
def sampleOf (cfg : Config) (ts : Nat) (e : Detection) : Sample :=
  ⟨ts, round1 (e.speed * cfg.calib_slope + cfg.calib_offset), e.distance⟩

/-- One iteration of the `while True` loop of `consume_data_queue`
(source lines 119-184), given the wall-clock second `ts` observed at the
top of the body and the outcome `ev` of the `get` call.  A detection
outside the distance thresholds hits `continue` (line 143), skipping the
trace output, the append and also the staleness sweep; the sentinel
flushes everything and breaks; `KeyboardInterrupt` breaks with no flush;
a `queue.Empty` timeout falls through to the sweep. -/
def stepIter (cfg : Config) (st : ConsumerState) (ts : Nat) (ev : QEvent) :
    StepRes :=
  match ev with
  | .sentinelEv => .stop .sentinelHit st ⟨flushAll st.data_dict, []⟩
  | .interruptEv => .stop .interrupted st ⟨[], []⟩
  | .emptyEv =>
    let sw := runSweep ts st
    .next sw.1 ⟨sw.2, []⟩
  | .entry e =>
    if e.distance < cfg.dist_low ∨ e.distance > cfg.dist_high then
      .next st ⟨[], []⟩
    else
      let pr := if cfg.print_stream then [(ts, e)] else []
      let tr := if cfg.write_stream then [WriteRec.traceRec ts e] else []
      let st1 : ConsumerState :=
        { st with
          data_dict := dictAppend st.data_dict e.threat_id (sampleOf cfg ts e) }
      let sw := runSweep ts st1
      .next sw.1 ⟨tr ++ sw.2, pr⟩

/-- Accumulated result of running the consumer loop over a finite list of
iterations. -/
structure RunOutput where
  log : List WriteRec
  printed : List (Nat × Detection)
  state : ConsumerState
  reason : TermReason
deriving DecidableEq

/-- Run the consumer loop from a given state over the given iterations. -/
def runFrom (cfg : Config) (st : ConsumerState) :
    List (Nat × QEvent) → RunOutput
  | [] => ⟨[], [], st, .ranOut⟩
  | (ts, ev) :: rest =>
    match stepIter cfg st ts ev with
    | .stop r st' out => ⟨out.log, out.printed, st', r⟩
    | .next st' out =>
      let tail := runFrom cfg st' rest
      ⟨out.log ++ tail.log, out.printed ++ tail.printed, tail.state, tail.reason⟩

/-- Embedding of `consume_data_queue` (source lines 106-184): the initial
`None` checks on the calibration and threshold parameters (lines
108-114), then the loop from an empty dictionary with `last_timestamp`
set to the starting second (lines 117-118). -/
def consume_data_queue (print_stream write_stream : Bool)
    (calib_slope calib_offset dist_low dist_high : Option ℚ)
    (start_ts : Nat) (input : List (Nat × QEvent)) : RunOutput :=
  if calib_slope.isNone ∨ calib_offset.isNone then
    ⟨[], [], ⟨[], start_ts⟩, .configMissing⟩
  else if dist_high.isNone ∨ dist_low.isNone then
    ⟨[], [], ⟨[], start_ts⟩, .configMissing⟩
  else
    runFrom
      ⟨print_stream, write_stream, calib_slope.getD 0, calib_offset.getD 0,
        dist_low.getD 0, dist_high.getD 0⟩
      ⟨[], start_ts⟩ input

/-- The accepted detections of an iteration list, with their arrival
seconds, up to the first sentinel or interruption: this is the stream of
trace lines the loop emits when tracing is enabled. -/
def acceptedEvents (cfg : Config) : List (Nat × QEvent) → List (Nat × Detection)
  | [] => []
  | (ts, .entry e) :: rest =>
    (if accepts cfg e then [(ts, e)] else []) ++ acceptedEvents cfg rest
  | (_, .emptyEv) :: rest => acceptedEvents cfg rest
  | (_, .sentinelEv) :: _ => []
  | (_, .interruptEv) :: _ => []

/-- The calibrated samples the loop accepts, tagged by `threat_id`, up to
the first sentinel or interruption. -/
def acceptedSamples (cfg : Config) : List (Nat × QEvent) → List (Nat × Sample)
  | [] => []
  | (ts, .entry e) :: rest =>
    (if accepts cfg e then [(e.threat_id, sampleOf cfg ts e)] else []) ++
      acceptedSamples cfg rest
  | (_, .emptyEv) :: rest => acceptedSamples cfg rest
  | (_, .sentinelEv) :: _ => []
  | (_, .interruptEv) :: _ => []

/-- All samples held by a dictionary, tagged by their key, in dictionary
order. -/
def taggedFlat (d : List (Nat × List Sample)) : List (Nat × Sample) :=
  d.flatMap (fun kv => kv.2.map (fun s => (kv.1, s)))

/-!
Write-failure model.  The source opens and writes its output files with
no exception handler inside the consumer: the `try` block of lines
121-157 catches only `queue.Empty` and `KeyboardInterrupt`, and the
sweep writes of lines 180-182 sit outside any `try`.  A `PermissionError`
raised by a summary or trace write therefore propagates out of
`consume_data_queue` and kills the consumer thread.  The functions below
rerun the loop with a budget of writes that succeed; the write attempt
after the budget is exhausted raises.
-/

/-- The sweep of lines 169-184 under the failure model.  Windows are
visited in dictionary order; a stale window's summary write is attempted
before its `del`, so when the write raises, that window and all
unvisited ones stay in the dictionary.  Returns the surviving
dictionary, the writes performed, the remaining budget, and whether the
write raised. -/
def sweepDictF (now : Nat) (budget : Nat) :
    List (Nat × List Sample) →
      List (Nat × List Sample) × List WriteRec × Nat × Bool
  | [] => ([], [], budget, false)
  | kv :: rest =>
    if staleCheck now kv.2 then
      match budget with
      | 0 => (kv :: rest, [], 0, true)
      | b + 1 =>
        let r := sweepDictF now b rest
        (r.1, .summaryRec kv.1 kv.2 :: r.2.1, r.2.2)
    else
      let r := sweepDictF now budget rest
      (kv :: r.1, r.2)

/-- The shutdown flush of lines 129-138 under the failure model: one
write per window in dictionary order, stopping at the first raise. -/
def flushAllF (budget : Nat) :
    List (Nat × List Sample) → List WriteRec × Nat × Bool
  | [] => ([], budget, false)
  | kv :: rest =>
    match budget with
    | 0 => ([], 0, true)
    | b + 1 =>
      let r := flushAllF b rest
      (.summaryRec kv.1 kv.2 :: r.1, r.2)

/-- The staleness sweep under the failure model, including the
once-per-second gate. -/
def runSweepF (ts : Nat) (st : ConsumerState) (budget : Nat) :
    ConsumerState × List WriteRec × Nat × Bool :=
  if ts = st.last_timestamp then (st, [], budget, false)
  else
    let r := sweepDictF ts budget st.data_dict
    ({ data_dict := r.1, last_timestamp := ts }, r.2)

/-- One loop iteration under the failure model.  The console print of
line 148 precedes the trace write of lines 150-152, so it survives a
raising trace write; the dictionary append of line 157 follows the trace
write, so a raising trace write loses the sample. -/
def stepIterF (cfg : Config) (st : ConsumerState) (ts : Nat) (ev : QEvent)
    (budget : Nat) : StepRes × Nat :=
  match ev with
  | .sentinelEv =>
    let r := flushAllF budget st.data_dict
    if r.2.2 then (.stop .crashed st ⟨r.1, []⟩, r.2.1)
    else (.stop .sentinelHit st ⟨r.1, []⟩, r.2.1)
  | .interruptEv => (.stop .interrupted st ⟨[], []⟩, budget)
  | .emptyEv =>
    let r := runSweepF ts st budget
    if r.2.2.2 then (.stop .crashed r.1 ⟨r.2.1, []⟩, r.2.2.1)
    else (.next r.1 ⟨r.2.1, []⟩, r.2.2.1)
  | .entry e =>
    if e.distance < cfg.dist_low ∨ e.distance > cfg.dist_high then
      (.next st ⟨[], []⟩, budget)
    else
      let pr := if cfg.print_stream then [(ts, e)] else []
      if cfg.write_stream ∧ budget = 0 then
        (.stop .crashed st ⟨[], pr⟩, 0)
      else
        let budget1 := if cfg.write_stream then budget - 1 else budget
        let tr := if cfg.write_stream then [WriteRec.traceRec ts e] else []
        let st1 : ConsumerState :=
          { st with
            data_dict := dictAppend st.data_dict e.threat_id
              (sampleOf cfg ts e) }
        let r := runSweepF ts st1 budget1
        if r.2.2.2 then (.stop .crashed r.1 ⟨tr ++ r.2.1, pr⟩, r.2.2.1)
        else (.next r.1 ⟨tr ++ r.2.1, pr⟩, r.2.2.1)

/-- Run the consumer loop under the failure model: all write attempts
after the first `budget` of them raise, and the first raise ends the
loop (the exception is uncaught). -/
def runFromF (cfg : Config) (st : ConsumerState) (budget : Nat) :
    List (Nat × QEvent) → RunOutput
  | [] => ⟨[], [], st, .ranOut⟩
  | (ts, ev) :: rest =>
    match stepIterF cfg st ts ev budget with
    | (.stop r st' out, _) => ⟨out.log, out.printed, st', r⟩
    | (.next st' out, budget') =>
      let tail := runFromF cfg st' budget' rest
      ⟨out.log ++ tail.log, out.printed ++ tail.printed, tail.state, tail.reason⟩

/-- Concrete three-sample window used by the C2 witness. -/
def c2data : List Sample := [⟨0, 5, 50⟩, ⟨1, 7, 60⟩, ⟨2, 6, 55⟩]

/-- Concrete one-sample window used by the C4 witness. -/
def c4data : List Sample := [⟨3, 4, 9⟩]

/-- The summary of the window above. -/
def c4summary : Summary := ⟨3, 4, 4, 4, [(4, 9)]⟩

/-- Configuration used by concrete spot checks of the loop body. -/
def cfgPlain : Config := ⟨false, false, 1, 0, 10, 100⟩

/-- State used by the C5 witness: one stale window (target 1, last seen
at second 0) and one fresh window (target 2, last seen at second 15),
checked at second 16. -/
def c5st : ConsumerState := ⟨[(1, [⟨0, 20, 50⟩]), (2, [⟨15, 30, 50⟩])], 15⟩

/-- Configuration with both live-stream flags enabled, used by the trace
spot checks. -/
def cfgTrace : Config := ⟨true, true, 1, 0, 10, 100⟩

/-- Write records of a step result (used to relate the failure model to
the normal run). -/
def stepLog : StepRes → List WriteRec
  | .next _ out => out.log
  | .stop _ _ out => out.log

/-- Console lines of a step result. -/
def stepPrinted : StepRes → List (Nat × Detection)
  | .next _ out => out.printed
  | .stop _ _ out => out.printed

/-! Basic facts about write logs, the dictionary and the sort. -/

theorem flushedOf_append (a b : List WriteRec) :
    flushedOf (a ++ b) = flushedOf a ++ flushedOf b := by
  simp [flushedOf]

theorem tracedOf_append (a b : List WriteRec) :
    tracedOf (a ++ b) = tracedOf a ++ tracedOf b := by
  simp [tracedOf]

theorem flushedOf_summaryMap (d : List (Nat × List Sample)) :
    flushedOf (d.map (fun kv => .summaryRec kv.1 kv.2)) = d := by
  induction d with
  | nil => rfl
  | cons kv rest ih => simp [flushedOf, List.filterMap_cons] at ih ⊢; exact ih

theorem tracedOf_summaryMap (d : List (Nat × List Sample)) :
    tracedOf (d.map (fun kv => .summaryRec kv.1 kv.2)) = [] := by
  induction d with
  | nil => rfl
  | cons kv rest ih => simp only [tracedOf, List.map_cons,
      List.filterMap_cons] at ih ⊢; exact ih

theorem flushedOf_flushAll (d : List (Nat × List Sample)) :
    flushedOf (flushAll d) = d := flushedOf_summaryMap d

theorem taggedFlat_append (a b : List (Nat × List Sample)) :
    taggedFlat (a ++ b) = taggedFlat a ++ taggedFlat b := by
  simp [taggedFlat]

theorem taggedFlat_perm {a b : List (Nat × List Sample)} (h : List.Perm a b) :
    List.Perm (taggedFlat a) (taggedFlat b) :=
  h.flatMap_right _

theorem taggedFlat_dictAppend (d : List (Nat × List Sample)) (k : Nat)
    (s : Sample) :
    List.Perm (taggedFlat (dictAppend d k s)) (taggedFlat d ++ [(k, s)]) := by
  induction d with
  | nil => simp [dictAppend, taggedFlat]
  | cons kv rest ih =>
    obtain ⟨k1, v⟩ := kv
    by_cases hk : k1 = k
    · subst hk
      have hd : dictAppend ((k1, v) :: rest) k1 s = (k1, v ++ [s]) :: rest := by
        simp [dictAppend]
      rw [hd]
      simp only [taggedFlat, List.flatMap_cons, List.map_append, List.map_cons,
        List.map_nil, List.append_assoc, List.singleton_append]
      exact List.Perm.append_left _ (@List.perm_append_comm _ [(k1, s)] _)
    · simp only [dictAppend, if_neg hk, taggedFlat, List.flatMap_cons] at ih ⊢
      refine List.Perm.trans (List.Perm.append_left _ ih) ?_
      rw [List.append_assoc]

/-- The two filters of the staleness sweep partition the dictionary. -/
theorem sweep_partition_perm (now : Nat) (d : List (Nat × List Sample)) :
    List.Perm
      (d.filter (fun kv => staleCheck now kv.2) ++
        d.filter (fun kv => !staleCheck now kv.2)) d :=
  List.filter_append_perm _ d

/-- Both branches of `runSweep` only repartition the samples of the
dictionary between the flushed windows and the surviving ones. -/
theorem runSweep_perm (ts : Nat) (st : ConsumerState) :
    List.Perm
      (taggedFlat (flushedOf (runSweep ts st).2) ++
        taggedFlat (runSweep ts st).1.data_dict)
      (taggedFlat st.data_dict) := by
  by_cases h : ts = st.last_timestamp
  · simp [runSweep, if_pos h, flushedOf, taggedFlat]
  · simp only [runSweep, if_neg h, flushedOf_summaryMap]
    refine List.Perm.trans ?_ (taggedFlat_perm (sweep_partition_perm ts st.data_dict))
    rw [taggedFlat_append]

theorem accepts_iff (cfg : Config) (e : Detection) :
    accepts cfg e = true ↔
      ¬(e.distance < cfg.dist_low ∨ e.distance > cfg.dist_high) := by
  simp [accepts, not_or]

theorem accepts_eq_false_iff (cfg : Config) (e : Detection) :
    accepts cfg e = false ↔
      (e.distance < cfg.dist_low ∨ e.distance > cfg.dist_high) := by
  rw [Bool.eq_false_iff, Ne, accepts_iff, not_not]

theorem sortedDesc_perm (l : List ℚ) : List.Perm (sortedDesc l) l :=
  List.mergeSort_perm l _

theorem sortedDesc_length (l : List ℚ) : (sortedDesc l).length = l.length :=
  (sortedDesc_perm l).length_eq

theorem sortedDesc_pairwise (l : List ℚ) :
    (sortedDesc l).Pairwise (fun a b => b ≤ a) := by
  have h := @List.sorted_mergeSort ℚ (fun a b : ℚ => decide (b ≤ a))
    (fun a b c hab hbc => by
      simp only [decide_eq_true_eq] at *
      exact le_trans hbc hab)
    (fun a b => by
      rcases le_total a b with h | h <;> simp [h])
    l
  exact h.imp (fun hab => by simpa using hab)

instance : Std.Antisymm (fun x1 x2 : ℚ => x1 ≤ x2) :=
  ⟨fun h1 h2 => le_antisymm h1 h2⟩

theorem qmax_eq_some_iff {l : List ℚ} {a : ℚ} :
    l.max? = some a ↔ a ∈ l ∧ ∀ b ∈ l, b ≤ a :=
  List.max?_eq_some_iff (fun x => le_refl x) (fun x y => max_choice x y)
    (fun _ _ _ => max_le_iff)

/-- Every element of the descending-sorted list is at most its head. -/
theorem sortedDesc_head_ge {l : List ℚ} {m : ℚ}
    (h : (sortedDesc l).head? = some m) : ∀ x ∈ sortedDesc l, x ≤ m := by
  have hp := sortedDesc_pairwise l
  cases hs : sortedDesc l with
  | nil => rw [hs] at h; cases h
  | cons a rest =>
    rw [hs] at h hp
    cases h
    rw [List.pairwise_cons] at hp
    intro x hx
    rcases List.mem_cons.1 hx with rfl | hx
    · exact le_refl x
    · exact hp.1 x hx

/-- Unfolding of the record returned by `calculate_summary`, with the
index arithmetic expressed over `data.length`. -/
theorem calculate_summary_eq {data : List Sample} {s : Summary}
    (h : calculate_summary data = some s) :
    ∃ m m95 tmin,
      (sortedDesc (data.map Sample.speed)).head? = some m ∧
      ((sortedDesc (data.map Sample.speed)).drop (data.length / 20)).max? =
        some m95 ∧
      (data.map Sample.ts).min? = some tmin ∧
      s = ⟨tmin, m, m95,
        round1 ((data.map Sample.speed).sum / (data.length : ℚ)),
        data.map (fun d => (d.speed, d.dist))⟩ := by
  simp only [calculate_summary] at h
  rw [sortedDesc_length, List.length_map] at h
  cases h1 : (sortedDesc (data.map Sample.speed)).head? with
  | none => rw [h1] at h; cases h
  | some m =>
    rw [h1] at h
    cases h2 : ((sortedDesc (data.map Sample.speed)).drop (data.length / 20)).max? with
    | none => rw [h2] at h; cases h
    | some m95 =>
      rw [h2] at h
      cases h3 : (data.map Sample.ts).min? with
      | none => rw [h3] at h; cases h
      | some tmin =>
        rw [h3] at h
        exact ⟨m, m95, tmin, rfl, rfl, rfl, (Option.some.inj h).symm⟩

/-- On a non-empty window none of the error branches of
`calculate_summary` is taken. -/
theorem calculate_summary_isSome {data : List Sample} (h : data ≠ []) :
    (calculate_summary data).isSome := by
  have hsp : data.map Sample.speed ≠ [] := by
    simpa using h
  have hlen : 0 < (sortedDesc (data.map Sample.speed)).length := by
    rw [sortedDesc_length]
    exact List.length_pos.2 hsp
  have h1 : ∃ m, (sortedDesc (data.map Sample.speed)).head? = some m := by
    cases hs : sortedDesc (data.map Sample.speed) with
    | nil => rw [hs] at hlen; cases hlen
    | cons a rest => exact ⟨a, rfl⟩
  have hdrop : ((sortedDesc (data.map Sample.speed)).drop
      ((sortedDesc (data.map Sample.speed)).length / 20)) ≠ [] := by
    have hlt : (sortedDesc (data.map Sample.speed)).length / 20 <
        (sortedDesc (data.map Sample.speed)).length :=
      Nat.div_lt_self hlen (by omega)
    intro hnil
    have := congrArg List.length hnil
    rw [List.length_drop] at this
    simp only [List.length_nil] at this
    omega
  have h2 : ∃ m95, ((sortedDesc (data.map Sample.speed)).drop
      ((sortedDesc (data.map Sample.speed)).length / 20)).max? = some m95 := by
    cases hm : ((sortedDesc (data.map Sample.speed)).drop
        ((sortedDesc (data.map Sample.speed)).length / 20)).max? with
    | none => exact absurd (List.max?_eq_none_iff.1 hm) hdrop
    | some m95 => exact ⟨m95, rfl⟩
  have h3 : ∃ tmin, (data.map Sample.ts).min? = some tmin := by
    cases hm : (data.map Sample.ts).min? with
    | none =>
      exact absurd (List.min?_eq_none_iff.1 hm) (by simpa using h)
    | some tmin => exact ⟨tmin, rfl⟩
  obtain ⟨m, hm⟩ := h1
  obtain ⟨m95, hm95⟩ := h2
  obtain ⟨tmin, htmin⟩ := h3
  simp only [calculate_summary]
  rw [hm, hm95, htmin]
  rfl

/-- The index dropped by the percentile computation: `int(count * 0.05)`
of the source equals both the claim-side floor expression and natural
division by 20. -/
theorem n95_floor (n : Nat) : Nat.floor ((n : ℚ) * (5 / 100)) = n / 20 := by
  have h : (n : ℚ) * (5 / 100) = (n : ℚ) / ((20 : ℕ) : ℚ) := by
    push_cast
    ring
  rw [h, Nat.floor_div_nat, Nat.floor_natCast]

theorem mem_of_head_some {α : Type} {l : List α} {m : α}
    (h : l.head? = some m) : m ∈ l := by
  cases l with
  | nil => cases h
  | cons a t => exact Option.some.inj h ▸ List.mem_cons_self a t

theorem sortedDesc_singleton (x : ℚ) : sortedDesc [x] = [x] := by
  simp [sortedDesc]

/-- C2: for every non-empty sample list the summary's 95-percent max is
the greatest value left after sorting the speeds in descending order and
dropping the fastest `floor(count * 0.05)` of them; when that count is
zero (fewer than 20 samples) it coincides with the max field. -/
theorem p95_drops_fastest_five_percent (data : List Sample)
    (h : data ≠ []) :
    ∃ s, calculate_summary data = some s ∧
      s.max95 ∈ (sortedDesc (data.map Sample.speed)).drop
        (Nat.floor ((data.length : ℚ) * (5 / 100))) ∧
      (∀ x ∈ (sortedDesc (data.map Sample.speed)).drop
        (Nat.floor ((data.length : ℚ) * (5 / 100))), x ≤ s.max95) ∧
      (data.length < 20 → s.max95 = s.max) := by
  obtain ⟨s, hsome⟩ := Option.isSome_iff_exists.1 (calculate_summary_isSome h)
  obtain ⟨m, m95, tmin, hm, hm95, htmin, hseq⟩ := calculate_summary_eq hsome
  subst hseq
  rw [n95_floor]
  obtain ⟨hmem, hub⟩ := qmax_eq_some_iff.1 hm95
  refine ⟨_, hsome, hmem, hub, ?_⟩
  intro h20
  have h0 : data.length / 20 = 0 := Nat.div_eq_of_lt h20
  rw [h0, List.drop_zero] at hmem hub
  have hge := sortedDesc_head_ge hm
  show m95 = m
  exact le_antisymm (hge m95 hmem) (hub m (mem_of_head_some hm))

/-- C2 witness: a concrete three-sample window, where nothing is dropped
and the 95-percent max equals the max. -/
theorem p95_drops_fastest_five_percent_spot :
    c2data ≠ [] ∧
      (∃ s, calculate_summary c2data = some s ∧
        s.max95 ∈ (sortedDesc (c2data.map Sample.speed)).drop
          (Nat.floor ((c2data.length : ℚ) * (5 / 100))) ∧
        (∀ x ∈ (sortedDesc (c2data.map Sample.speed)).drop
          (Nat.floor ((c2data.length : ℚ) * (5 / 100))), x ≤ s.max95) ∧
        (c2data.length < 20 → s.max95 = s.max)) :=
  ⟨by decide, p95_drops_fastest_five_percent _ (by decide)⟩

/-- C4: the summary's max dominates its 95-percent max, the 95-percent
max dominates every speed that survives the five-percent cut, and a
one-sample window has max, 95-percent max and average all equal to that
sample's calibrated speed (the average via the one-decimal rounding,
which fixes an already-rounded calibrated speed). -/
theorem summary_order_bounds (data : List Sample) (s : Summary)
    (h : calculate_summary data = some s) :
    s.max95 ≤ s.max ∧
      (∀ x ∈ (sortedDesc (data.map Sample.speed)).drop (data.length / 20),
        x ≤ s.max95) ∧
      (∀ d, data = [d] → s.max = d.speed ∧ s.max95 = d.speed ∧
        s.average = round1 d.speed ∧
        (round1 d.speed = d.speed → s.average = d.speed)) := by
  obtain ⟨m, m95, tmin, hm, hm95, htmin, hseq⟩ := calculate_summary_eq h
  subst hseq
  obtain ⟨hmem, hub⟩ := qmax_eq_some_iff.1 hm95
  refine ⟨?_, hub, ?_⟩
  · exact sortedDesc_head_ge hm m95 (List.mem_of_mem_drop hmem)
  · rintro d rfl
    rw [List.map_singleton, sortedDesc_singleton] at hm hm95
    simp only [List.length_singleton] at hm95
    rw [List.map_singleton] at htmin
    have hmd : m = d.speed := by cases hm; rfl
    have hm95d : m95 = d.speed := by
      have : ([d.speed] : List ℚ).drop (1 / 20) = [d.speed] := rfl
      rw [this] at hm95
      have := qmax_eq_some_iff.1 hm95
      rcases List.mem_singleton.1 this.1 with h1
      exact h1
    have havg : ((([d] : List Sample).map Sample.speed).sum /
        ((([d] : List Sample).length : ℚ))) = d.speed := by
      simp
    refine ⟨hmd.symm ▸ rfl, hm95d.symm ▸ rfl, ?_, ?_⟩
    · show round1 _ = round1 d.speed
      rw [havg]
    · intro hfix
      show round1 _ = d.speed
      rw [havg, hfix]

/-- C4 witness: a concrete one-sample window. -/
theorem summary_order_bounds_spot :
    calculate_summary c4data = some c4summary ∧
      (c4summary.max95 ≤ c4summary.max ∧
        (∀ x ∈ (sortedDesc (c4data.map Sample.speed)).drop
          (c4data.length / 20), x ≤ c4summary.max95) ∧
        (∀ d, c4data = [d] → c4summary.max = d.speed ∧
          c4summary.max95 = d.speed ∧
          c4summary.average = round1 d.speed ∧
          (round1 d.speed = d.speed → c4summary.average = d.speed))) :=
  ⟨by with_unfolding_all decide,
    summary_order_bounds _ _ (by with_unfolding_all decide)⟩

theorem flushedOf_traceOpt (b : Bool) (ts : Nat) (e : Detection) :
    flushedOf (if b then [WriteRec.traceRec ts e] else []) = [] := by
  cases b <;> simp [flushedOf]

/-- C3: a dequeued detection whose distance lies inside the inclusive
thresholds contributes exactly one calibrated sample
`round1(speed*slope + offset)` to its target's window, and one outside
them leaves the aggregation state, the write log and the console output
untouched. -/
theorem filter_calibration_step (cfg : Config) (st : ConsumerState)
    (ts : Nat) (e : Detection) (hlh : cfg.dist_low ≤ cfg.dist_high) :
    (cfg.dist_low ≤ e.distance ∧ e.distance ≤ cfg.dist_high →
      ∃ st' out, stepIter cfg st ts (.entry e) = .next st' out ∧
        List.Perm
          (taggedFlat (flushedOf out.log) ++ taggedFlat st'.data_dict)
          (taggedFlat st.data_dict ++
            [(e.threat_id,
              ⟨ts, round1 (e.speed * cfg.calib_slope + cfg.calib_offset),
                e.distance⟩)])) ∧
    (e.distance < cfg.dist_low ∨ e.distance > cfg.dist_high →
      stepIter cfg st ts (.entry e) = .next st ⟨[], []⟩) := by
  constructor
  · intro hacc
    have hnr : ¬(e.distance < cfg.dist_low ∨ e.distance > cfg.dist_high) := by
      push_neg
      exact hacc
    simp only [stepIter, if_neg hnr]
    refine ⟨_, _, rfl, ?_⟩
    rw [flushedOf_append, flushedOf_traceOpt, List.nil_append]
    refine List.Perm.trans (runSweep_perm ts _) ?_
    exact taggedFlat_dictAppend st.data_dict e.threat_id _
  · intro hrej
    simp only [stepIter, if_pos hrej]

/-- C3 witness: an in-range detection at distance 50 is appended as one
calibrated sample; the theorem is applied with its threshold hypothesis
discharged concretely. -/
theorem filter_calibration_step_spot :
    (cfgPlain.dist_low ≤ (50 : ℚ) ∧ (50 : ℚ) ≤ cfgPlain.dist_high) ∧
      (∃ st' out,
        stepIter cfgPlain ⟨[], 5⟩ 5 (.entry ⟨9, 20, 50⟩) = .next st' out ∧
        List.Perm
          (taggedFlat (flushedOf out.log) ++ taggedFlat st'.data_dict)
          (taggedFlat (⟨[], 5⟩ : ConsumerState).data_dict ++
            [((9 : Nat),
              ⟨5, round1 ((20 : ℚ) * cfgPlain.calib_slope +
                cfgPlain.calib_offset), (50 : ℚ)⟩)])) :=
  ⟨by with_unfolding_all decide,
    (filter_calibration_step cfgPlain ⟨[], 5⟩ 5 ⟨9, 20, 50⟩
      (by with_unfolding_all decide)).1 (by with_unfolding_all decide)⟩

/-- C5: on an idle tick the sweep runs exactly when the observed second
differs from the previously checked one; it then writes a summary for,
and removes, precisely the windows whose most recently appended sample
is more than 10 seconds older than the current second (strictly),
keeping the others. -/
theorem staleness_sweep_step (cfg : Config) (st : ConsumerState) (ts : Nat) :
    (ts = st.last_timestamp → stepIter cfg st ts .emptyEv = .next st ⟨[], []⟩) ∧
    (ts ≠ st.last_timestamp →
      stepIter cfg st ts .emptyEv =
        .next ⟨st.data_dict.filter (fun kv => !staleCheck ts kv.2), ts⟩
          ⟨(st.data_dict.filter (fun kv => staleCheck ts kv.2)).map
            (fun kv => WriteRec.summaryRec kv.1 kv.2), []⟩) ∧
    (∀ tid data d, (tid, data) ∈ st.data_dict → data.getLast? = some d →
      ((staleCheck ts data = true) ↔ (10 : ℤ) < (ts : ℤ) - (d.ts : ℤ)) ∧
      ((tid, data) ∈ flushedOf
          ((st.data_dict.filter (fun kv => staleCheck ts kv.2)).map
            (fun kv => WriteRec.summaryRec kv.1 kv.2)) ↔
        (10 : ℤ) < (ts : ℤ) - (d.ts : ℤ)) ∧
      ((tid, data) ∈ st.data_dict.filter (fun kv => !staleCheck ts kv.2) ↔
        (ts : ℤ) - (d.ts : ℤ) ≤ 10)) := by
  refine ⟨?_, ?_, ?_⟩
  · intro h
    simp only [stepIter, runSweep, if_pos h]
  · intro h
    simp only [stepIter, runSweep, if_neg h]
  · intro tid data d hmem hlast
    have hsc : staleCheck ts data = decide ((10 : ℤ) < (ts : ℤ) - (d.ts : ℤ)) := by
      simp [staleCheck, hlast]
    refine ⟨?_, ?_, ?_⟩
    · rw [hsc]; exact decide_eq_true_iff
    · rw [flushedOf_summaryMap, List.mem_filter, hsc]
      constructor
      · intro hin
        exact of_decide_eq_true hin.2
      · intro hgt
        exact ⟨hmem, decide_eq_true hgt⟩
    · rw [List.mem_filter, hsc]
      constructor
      · intro hin
        have := hin.2
        rw [Bool.not_eq_eq_eq_not] at this
        simp only [Bool.not_true] at this
        exact not_lt.1 (of_decide_eq_false this)
      · intro hle
        refine ⟨hmem, ?_⟩
        rw [decide_eq_false (not_lt.2 hle)]
        rfl

/-- C5 witness: at second 16 the sweep flushes exactly the stale window
and keeps the fresh one. -/
theorem staleness_sweep_step_spot :
    stepIter cfgPlain c5st 16 .emptyEv =
      .next ⟨[(2, [⟨15, 30, 50⟩])], 16⟩
        ⟨[.summaryRec 1 [⟨0, 20, 50⟩]], []⟩ := by
  have h := (staleness_sweep_step cfgPlain c5st 16).2.1 (by decide)
  rw [h]
  with_unfolding_all decide

/-- C7 counterexample: a detection for target 7 is accepted at second 6,
and a `KeyboardInterrupt` is raised at second 7.  The loop stops with
the window still in the active map and nothing written: the in-flight
window is not flushed, contradicting the claim that interruption drains
all in-flight windows. -/
theorem interrupt_loses_windows :
    (runFrom cfgPlain ⟨[], 5⟩
        [(6, .entry ⟨7, 20, 50⟩), (7, .interruptEv)]).reason =
      .interrupted ∧
    (runFrom cfgPlain ⟨[], 5⟩
        [(6, .entry ⟨7, 20, 50⟩), (7, .interruptEv)]).state.data_dict ≠ [] ∧
    flushedOf (runFrom cfgPlain ⟨[], 5⟩
        [(6, .entry ⟨7, 20, 50⟩), (7, .interruptEv)]).log = [] := by
  with_unfolding_all decide

/-- C7 amended: a `KeyboardInterrupt` dequeued by the loop terminates
the consumer immediately with no flush of any kind: no summary is
written, nothing is printed, and the active windows are simply dropped.
Only the sentinel path flushes the remaining windows. -/
theorem interrupt_halts_immediately (cfg : Config) (st : ConsumerState)
    (ts : Nat) (rest : List (Nat × QEvent)) :
    runFrom cfg st ((ts, .interruptEv) :: rest) = ⟨[], [], st, .interrupted⟩ := by
  simp [runFrom, stepIter]

/-- C8 counterexample: with both stream flags set, a raw event at
distance 5 (below the lower threshold 10) is rejected by the distance
filter before the trace block is reached, so no trace line and no
console line is produced for it — contradicting the claim that every
raw event, accepted or rejected, gets a trace line. -/
theorem trace_skips_rejected :
    accepts cfgTrace ⟨3, 9, 5⟩ = false ∧
    tracedOf (runFrom cfgTrace ⟨[], 5⟩ [(5, .entry ⟨3, 9, 5⟩)]).log = [] ∧
    (runFrom cfgTrace ⟨[], 5⟩ [(5, .entry ⟨3, 9, 5⟩)]).printed = [] := by
  with_unfolding_all decide

theorem tracedOf_traceOpt (b : Bool) (ts : Nat) (e : Detection) :
    tracedOf (if b then [WriteRec.traceRec ts e] else []) =
      (if b then [(ts, e)] else []) := by
  cases b <;> simp [tracedOf]

theorem traced_of_runSweep (ts : Nat) (st : ConsumerState) :
    tracedOf (runSweep ts st).2 = [] := by
  by_cases h : ts = st.last_timestamp
  · simp [runSweep, if_pos h, tracedOf]
  · simp only [runSweep, if_neg h]
    exact tracedOf_summaryMap _

/-- C8 amended: the trace stream and the console receive one line per
accepted event — exactly the events that pass the distance filter, in
order — and nothing for rejected events. -/
theorem trace_lines_are_accepted_events (cfg : Config) (st : ConsumerState)
    (input : List (Nat × QEvent)) :
    (cfg.write_stream = true →
      tracedOf (runFrom cfg st input).log = acceptedEvents cfg input) ∧
    (cfg.print_stream = true →
      (runFrom cfg st input).printed = acceptedEvents cfg input) := by
  induction input generalizing st with
  | nil => exact ⟨fun _ => rfl, fun _ => rfl⟩
  | cons hd rest ih =>
    obtain ⟨ts, ev⟩ := hd
    cases ev with
    | sentinelEv =>
      refine ⟨fun hw => ?_, fun hp => ?_⟩ <;>
        simp [runFrom, stepIter, acceptedEvents, flushAll, tracedOf_summaryMap]
    | interruptEv =>
      refine ⟨fun hw => ?_, fun hp => ?_⟩ <;>
        simp [runFrom, stepIter, acceptedEvents, tracedOf]
    | emptyEv =>
      refine ⟨fun hw => ?_, fun hp => ?_⟩
      · simp only [runFrom, stepIter, tracedOf_append, traced_of_runSweep,
          List.nil_append, acceptedEvents]
        exact (ih _).1 hw
      · simp only [runFrom, stepIter, List.nil_append, acceptedEvents]
        exact (ih _).2 hp
    | entry e =>
      by_cases hrej : e.distance < cfg.dist_low ∨ e.distance > cfg.dist_high
      · have hacc : accepts cfg e = false := (accepts_eq_false_iff cfg e).2 hrej
        refine ⟨fun hw => ?_, fun hp => ?_⟩ <;>
          simp only [runFrom, stepIter, if_pos hrej, acceptedEvents, hacc,
            Bool.false_eq_true, if_neg (Bool.false_ne_true), List.nil_append,
            tracedOf_append, tracedOf, List.filterMap_nil]
        · exact (ih _).1 hw
        · exact (ih _).2 hp
      · have hacc : accepts cfg e = true := by
          rw [accepts_iff]; exact hrej
        refine ⟨fun hw => ?_, fun hp => ?_⟩
        · simp only [runFrom, stepIter, if_neg hrej, tracedOf_append,
            tracedOf_traceOpt, traced_of_runSweep, List.append_nil,
            acceptedEvents, hacc, if_pos rfl, hw, List.singleton_append]
          rw [(ih _).1 hw]
          simp [tracedOf]
        · simp only [runFrom, stepIter, if_neg hrej, acceptedEvents, hacc,
            if_pos rfl, hp, List.singleton_append]
          rw [(ih _).2 hp]

/-- C8 amended witness: with tracing on, an accepted event at second 6
is the only trace line of its run. -/
theorem trace_lines_are_accepted_events_spot :
    tracedOf (runFrom cfgTrace ⟨[], 5⟩
        [(6, .entry ⟨7, 20, 50⟩), (7, .entry ⟨3, 9, 5⟩)]).log =
      acceptedEvents cfgTrace [(6, .entry ⟨7, 20, 50⟩), (7, .entry ⟨3, 9, 5⟩)] :=
  (trace_lines_are_accepted_events cfgTrace ⟨[], 5⟩
    [(6, .entry ⟨7, 20, 50⟩), (7, .entry ⟨3, 9, 5⟩)]).1 rfl

/-- C10: the two live-stream flags do not interfere with the durable
output: for the same dequeued entries and wall-clock seconds, the
summary records appended to the output file, the final aggregation
state and the termination reason are identical whatever the flags. -/
theorem flags_do_not_affect_summaries (sl off lo hi : ℚ)
    (p1 w1 p2 w2 : Bool) (st : ConsumerState)
    (input : List (Nat × QEvent)) :
    flushedOf (runFrom ⟨p1, w1, sl, off, lo, hi⟩ st input).log =
      flushedOf (runFrom ⟨p2, w2, sl, off, lo, hi⟩ st input).log ∧
    summaryRecords ⟨p1, w1, sl, off, lo, hi⟩
        (runFrom ⟨p1, w1, sl, off, lo, hi⟩ st input).log =
      summaryRecords ⟨p2, w2, sl, off, lo, hi⟩
        (runFrom ⟨p2, w2, sl, off, lo, hi⟩ st input).log ∧
    (runFrom ⟨p1, w1, sl, off, lo, hi⟩ st input).state =
      (runFrom ⟨p2, w2, sl, off, lo, hi⟩ st input).state ∧
    (runFrom ⟨p1, w1, sl, off, lo, hi⟩ st input).reason =
      (runFrom ⟨p2, w2, sl, off, lo, hi⟩ st input).reason := by
  have main : flushedOf (runFrom ⟨p1, w1, sl, off, lo, hi⟩ st input).log =
      flushedOf (runFrom ⟨p2, w2, sl, off, lo, hi⟩ st input).log ∧
      (runFrom ⟨p1, w1, sl, off, lo, hi⟩ st input).state =
        (runFrom ⟨p2, w2, sl, off, lo, hi⟩ st input).state ∧
      (runFrom ⟨p1, w1, sl, off, lo, hi⟩ st input).reason =
        (runFrom ⟨p2, w2, sl, off, lo, hi⟩ st input).reason := by
    induction input generalizing st with
    | nil => exact ⟨rfl, rfl, rfl⟩
    | cons hd rest ih =>
      obtain ⟨ts, ev⟩ := hd
      cases ev with
      | sentinelEv => exact ⟨rfl, rfl, rfl⟩
      | interruptEv => exact ⟨rfl, rfl, rfl⟩
      | emptyEv =>
        simp only [runFrom, stepIter]
        obtain ⟨h1, h2, h3⟩ := ih (runSweep ts st).1
        exact ⟨by simp only [flushedOf_append, h1], h2, h3⟩
      | entry e =>
        by_cases hrej : e.distance <
            (⟨p1, w1, sl, off, lo, hi⟩ : Config).dist_low ∨
            e.distance > (⟨p1, w1, sl, off, lo, hi⟩ : Config).dist_high
        · simp only [runFrom, stepIter, if_pos hrej]
          exact ih st
        · simp only [runFrom, stepIter, if_neg hrej]
          rw [show sampleOf (⟨p2, w2, sl, off, lo, hi⟩ : Config) ts e =
            sampleOf (⟨p1, w1, sl, off, lo, hi⟩ : Config) ts e from rfl]
          obtain ⟨h1, h2, h3⟩ := ih (runSweep ts
            { st with
              data_dict := dictAppend st.data_dict e.threat_id
                (sampleOf ⟨p1, w1, sl, off, lo, hi⟩ ts e) }).1
          refine ⟨?_, h2, h3⟩
          simp only [flushedOf_append, flushedOf_traceOpt, List.nil_append, h1]
  refine ⟨main.1, ?_, main.2⟩
  simp only [summaryRecords, main.1]

/-- Sample conservation for every run that reaches the sentinel: the
samples of the flushed windows are exactly the accepted samples plus
whatever the starting dictionary already held. -/
theorem runFrom_sentinel_perm (cfg : Config) (input : List (Nat × QEvent)) :
    ∀ st : ConsumerState,
      (runFrom cfg st input).reason = .sentinelHit →
      List.Perm (taggedFlat (flushedOf (runFrom cfg st input).log))
        (taggedFlat st.data_dict ++ acceptedSamples cfg input) := by
  induction input with
  | nil =>
    intro st h
    simp [runFrom] at h
  | cons hd rest ih =>
    obtain ⟨ts, ev⟩ := hd
    intro st h
    cases ev with
    | sentinelEv =>
      simp only [runFrom, stepIter] at h ⊢
      rw [flushedOf_flushAll]
      simp [acceptedSamples]
    | interruptEv =>
      simp only [runFrom, stepIter] at h
      cases h
    | emptyEv =>
      simp only [runFrom, stepIter] at h ⊢
      rw [flushedOf_append, taggedFlat_append]
      refine List.Perm.trans (List.Perm.append_left _ (ih _ h)) ?_
      rw [← List.append_assoc]
      rw [show acceptedSamples cfg ((ts, .emptyEv) :: rest) =
        acceptedSamples cfg rest from rfl]
      exact List.Perm.append_right _ (runSweep_perm ts st)
    | entry e =>
      by_cases hrej : e.distance < cfg.dist_low ∨ e.distance > cfg.dist_high
      · simp only [runFrom, stepIter, if_pos hrej] at h ⊢
        have hacc : accepts cfg e = false := (accepts_eq_false_iff cfg e).2 hrej
        rw [show acceptedSamples cfg ((ts, .entry e) :: rest) =
          acceptedSamples cfg rest from by simp [acceptedSamples, hacc]]
        exact ih _ h
      · simp only [runFrom, stepIter, if_neg hrej] at h ⊢
        have hacc : accepts cfg e = true := (accepts_iff cfg e).2 hrej
        rw [flushedOf_append, flushedOf_append, flushedOf_traceOpt,
          List.nil_append, taggedFlat_append]
        refine List.Perm.trans (List.Perm.append_left _ (ih _ h)) ?_
        rw [← List.append_assoc]
        rw [show acceptedSamples cfg ((ts, .entry e) :: rest) =
          [(e.threat_id, sampleOf cfg ts e)] ++ acceptedSamples cfg rest
          from by simp [acceptedSamples, hacc]]
        rw [← List.append_assoc]
        refine List.Perm.append_right _ ?_
        refine List.Perm.trans (runSweep_perm ts _) ?_
        exact taggedFlat_dictAppend st.data_dict e.threat_id _

/-- C1: in every run that terminates through the sentinel, the samples
written out in summary records are, with multiplicity, exactly the
accepted samples of the run, each tagged with its target: every target
with at least one accepted sample is flushed (by the staleness sweep or
the shutdown flush), and no sample is ever summarized twice. -/
theorem sessions_flushed_exactly_once (cfg : Config) (start_ts : Nat)
    (input : List (Nat × QEvent))
    (h : (runFrom cfg ⟨[], start_ts⟩ input).reason = .sentinelHit) :
    List.Perm
      (taggedFlat (flushedOf (runFrom cfg ⟨[], start_ts⟩ input).log))
      (acceptedSamples cfg input) := by
  have hp := runFrom_sentinel_perm cfg input ⟨[], start_ts⟩ h
  simpa [taggedFlat] using hp

/-- C1 witness: target 1 is accepted at second 0, flushed by the sweep
at second 20, and the sentinel arrives at second 21. -/
theorem sessions_flushed_exactly_once_spot :
    (runFrom cfgPlain ⟨[], 0⟩
        [(0, .entry ⟨1, 20, 50⟩), (20, .emptyEv), (21, .sentinelEv)]).reason =
      .sentinelHit ∧
    List.Perm
      (taggedFlat (flushedOf (runFrom cfgPlain ⟨[], 0⟩
        [(0, .entry ⟨1, 20, 50⟩), (20, .emptyEv), (21, .sentinelEv)]).log))
      (acceptedSamples cfgPlain
        [(0, .entry ⟨1, 20, 50⟩), (20, .emptyEv), (21, .sentinelEv)]) :=
  ⟨by with_unfolding_all decide,
    sessions_flushed_exactly_once cfgPlain 0
      [(0, .entry ⟨1, 20, 50⟩), (20, .emptyEv), (21, .sentinelEv)]
      (by with_unfolding_all decide)⟩

theorem dictAppend_nonempty {d : List (Nat × List Sample)} {k : Nat}
    {s : Sample} (h : ∀ kv ∈ d, kv.2 ≠ []) :
    ∀ kv ∈ dictAppend d k s, kv.2 ≠ [] := by
  induction d with
  | nil =>
    intro kv hkv
    rw [dictAppend, List.mem_singleton] at hkv
    subst hkv
    simp
  | cons a rest ih =>
    intro kv hkv
    rw [dictAppend] at hkv
    by_cases ha : a.1 = k
    · rw [if_pos ha] at hkv
      rcases List.mem_cons.1 hkv with heq | hkv
      · rw [heq]; simp
      · exact h kv (List.mem_cons_of_mem a hkv)
    · rw [if_neg ha] at hkv
      rcases List.mem_cons.1 hkv with heq | hkv
      · rw [heq]; exact h a (List.mem_cons_self a rest)
      · exact ih (fun x hx => h x (List.mem_cons_of_mem a hx)) kv hkv

theorem runSweep_nonempty (ts : Nat) (st : ConsumerState)
    (h : ∀ kv ∈ st.data_dict, kv.2 ≠ []) :
    (∀ kv ∈ (runSweep ts st).1.data_dict, kv.2 ≠ []) ∧
    (∀ w ∈ flushedOf (runSweep ts st).2, w.2 ≠ []) := by
  by_cases hts : ts = st.last_timestamp
  · refine ⟨?_, ?_⟩
    · simpa [runSweep, if_pos hts] using h
    · simp [runSweep, if_pos hts, flushedOf]
  · refine ⟨?_, ?_⟩
    · intro kv hkv
      simp only [runSweep, if_neg hts] at hkv
      exact h kv (List.mem_filter.1 hkv).1
    · intro w hw
      simp only [runSweep, if_neg hts, flushedOf_summaryMap] at hw
      exact h w (List.mem_filter.1 hw).1

theorem runFrom_windows_nonempty (cfg : Config)
    (input : List (Nat × QEvent)) :
    ∀ st : ConsumerState, (∀ kv ∈ st.data_dict, kv.2 ≠ []) →
      (∀ kv ∈ (runFrom cfg st input).state.data_dict, kv.2 ≠ []) ∧
      (∀ w ∈ flushedOf (runFrom cfg st input).log, w.2 ≠ []) := by
  induction input with
  | nil =>
    intro st h
    exact ⟨h, by simp [runFrom, flushedOf]⟩
  | cons hd rest ih =>
    obtain ⟨ts, ev⟩ := hd
    intro st h
    cases ev with
    | sentinelEv =>
      refine ⟨h, ?_⟩
      simp only [runFrom, stepIter, flushedOf_flushAll]
      exact h
    | interruptEv =>
      exact ⟨h, by simp [runFrom, stepIter, flushedOf]⟩
    | emptyEv =>
      have hsw := runSweep_nonempty ts st h
      have htail := ih (runSweep ts st).1 hsw.1
      refine ⟨htail.1, ?_⟩
      simp only [runFrom, stepIter, flushedOf_append]
      intro w hw
      rcases List.mem_append.1 hw with hw | hw
      · exact hsw.2 w hw
      · exact htail.2 w hw
    | entry e =>
      by_cases hrej : e.distance < cfg.dist_low ∨ e.distance > cfg.dist_high
      · have htail := ih st h
        refine ⟨?_, ?_⟩
        · simpa only [runFrom, stepIter, if_pos hrej] using htail.1
        · simpa only [runFrom, stepIter, if_pos hrej, flushedOf_append,
            flushedOf, List.filterMap_nil, List.nil_append] using htail.2
      · have h1 : ∀ kv ∈ dictAppend st.data_dict e.threat_id (sampleOf cfg ts e),
            kv.2 ≠ [] := dictAppend_nonempty h
        have hsw := runSweep_nonempty ts
          ⟨dictAppend st.data_dict e.threat_id (sampleOf cfg ts e),
            st.last_timestamp⟩ h1
        have htail := ih _ hsw.1
        refine ⟨?_, ?_⟩
        · simpa only [runFrom, stepIter, if_neg hrej] using htail.1
        · simp only [runFrom, stepIter, if_neg hrej, flushedOf_append,
            flushedOf_traceOpt, List.nil_append]
          intro w hw
          rcases List.mem_append.1 hw with hw | hw
          · exact hsw.2 w hw
          · exact htail.2 w hw

/-- C9: starting from the empty dictionary, every window held in the
active map is non-empty at all times, and every flushed window is
non-empty, so `calculate_summary` never reaches its error branches
(first-element indexing, empty max, division by zero) on any window the
loop summarizes. -/
theorem windows_nonempty_summary_total (cfg : Config) (start_ts : Nat)
    (input : List (Nat × QEvent)) :
    (∀ kv ∈ (runFrom cfg ⟨[], start_ts⟩ input).state.data_dict, kv.2 ≠ []) ∧
    (∀ w ∈ flushedOf (runFrom cfg ⟨[], start_ts⟩ input).log,
      w.2 ≠ [] ∧ (calculate_summary w.2).isSome) := by
  have hrun := runFrom_windows_nonempty cfg input ⟨[], start_ts⟩
    (by intro kv hkv; cases hkv)
  refine ⟨hrun.1, fun w hw => ?_⟩
  have hne := hrun.2 w hw
  exact ⟨hne, calculate_summary_isSome hne⟩

/-- C9 witness: the single window flushed by a concrete run is non-empty
and its summary computes. -/
theorem windows_nonempty_summary_total_spot :
    ([(⟨0, 20, 50⟩ : Sample)] ≠ []) ∧
      (calculate_summary [(⟨0, 20, 50⟩ : Sample)]).isSome :=
  (windows_nonempty_summary_total cfgPlain 0
    [(0, .entry ⟨1, 20, 50⟩), (20, .sentinelEv)]).2
    (1, [⟨0, 20, 50⟩]) (by with_unfolding_all decide)

/-! Relating the write-failure model to the normal run. -/

theorem flushAllF_spec (d : List (Nat × List Sample)) :
    ∀ budget : Nat,
      (flushAllF budget d).1 = (flushAll d).take budget ∧
      (flushAllF budget d).2.2 = decide (budget < d.length) ∧
      (d.length ≤ budget → (flushAllF budget d).2.1 = budget - d.length) := by
  induction d with
  | nil => intro budget; simp [flushAllF, flushAll]
  | cons kv rest ih =>
    intro budget
    cases budget with
    | zero =>
      refine ⟨rfl, by simp [flushAllF], ?_⟩
      intro hle
      simp at hle
    | succ b =>
      have h := ih b
      refine ⟨?_, ?_, ?_⟩
      · simp only [flushAllF, flushAll, List.map_cons, List.take_succ_cons]
        rw [← flushAll, h.1]
      · simp only [flushAllF, h.2.1, List.length_cons]
        by_cases hb : b < rest.length
        · simp [hb, Nat.succ_lt_succ_iff.2 hb]
        · simp [hb, fun hc => hb (Nat.succ_lt_succ_iff.1 hc)]
      · intro hle
        simp only [List.length_cons] at hle ⊢
        simp only [flushAllF]
        rw [h.2.2 (by omega)]
        omega

theorem sweepDictF_cons_stale_zero {now : Nat} {kv : Nat × List Sample}
    {rest : List (Nat × List Sample)} (h : staleCheck now kv.2 = true) :
    sweepDictF now 0 (kv :: rest) = (kv :: rest, [], 0, true) := by
  simp [sweepDictF, h]

theorem sweepDictF_cons_stale_succ {now : Nat} {kv : Nat × List Sample}
    {rest : List (Nat × List Sample)} {b : Nat}
    (h : staleCheck now kv.2 = true) :
    sweepDictF now (b + 1) (kv :: rest) =
      ((sweepDictF now b rest).1,
        .summaryRec kv.1 kv.2 :: (sweepDictF now b rest).2.1,
        (sweepDictF now b rest).2.2) := by
  simp [sweepDictF, h]

theorem sweepDictF_cons_fresh {now : Nat} {kv : Nat × List Sample}
    {rest : List (Nat × List Sample)} {budget : Nat}
    (h : staleCheck now kv.2 = false) :
    sweepDictF now budget (kv :: rest) =
      (kv :: (sweepDictF now budget rest).1,
        (sweepDictF now budget rest).2) := by
  simp [sweepDictF, h]

theorem sweepDictF_spec (now : Nat) (d : List (Nat × List Sample)) :
    ∀ budget : Nat,
      (sweepDictF now budget d).2.1 =
        ((d.filter (fun kv => staleCheck now kv.2)).map
          (fun kv => WriteRec.summaryRec kv.1 kv.2)).take budget ∧
      (sweepDictF now budget d).2.2.2 =
        decide (budget < (d.filter (fun kv => staleCheck now kv.2)).length) ∧
      ((d.filter (fun kv => staleCheck now kv.2)).length ≤ budget →
        (sweepDictF now budget d).1 =
          d.filter (fun kv => !staleCheck now kv.2) ∧
        (sweepDictF now budget d).2.2.1 =
          budget - (d.filter (fun kv => staleCheck now kv.2)).length) := by
  induction d with
  | nil => intro budget; simp [sweepDictF]
  | cons kv rest ih =>
    intro budget
    by_cases hs : staleCheck now kv.2
    · have hpos : List.filter (fun kv => staleCheck now kv.2) (kv :: rest) =
          kv :: rest.filter (fun kv => staleCheck now kv.2) := by
        simp [List.filter_cons, hs]
      have hneg : List.filter (fun kv => !staleCheck now kv.2) (kv :: rest) =
          rest.filter (fun kv => !staleCheck now kv.2) := by
        simp [List.filter_cons, hs]
      rw [hpos, hneg]
      cases budget with
      | zero =>
        rw [sweepDictF_cons_stale_zero hs]
        refine ⟨rfl, by simp, ?_⟩
        intro hle
        simp at hle
      | succ b =>
        rw [sweepDictF_cons_stale_succ hs]
        refine ⟨?_, ?_, ?_⟩
        · rw [List.map_cons, List.take_succ_cons, (ih b).1]
        · rw [(ih b).2.1, List.length_cons]
          exact decide_eq_decide.mpr (by omega)
        · intro hle
          rw [List.length_cons] at hle ⊢
          have h3 := (ih b).2.2 (by omega)
          exact ⟨h3.1, by rw [h3.2]; omega⟩
    · have hsf : staleCheck now kv.2 = false := by
        revert hs
        cases staleCheck now kv.2 <;> simp
      have hpos : List.filter (fun kv => staleCheck now kv.2) (kv :: rest) =
          rest.filter (fun kv => staleCheck now kv.2) := by
        simp [List.filter_cons, hsf]
      have hneg : List.filter (fun kv => !staleCheck now kv.2) (kv :: rest) =
          kv :: rest.filter (fun kv => !staleCheck now kv.2) := by
        simp [List.filter_cons, hsf]
      rw [hpos, hneg, sweepDictF_cons_fresh hsf]
      refine ⟨(ih budget).1, (ih budget).2.1, ?_⟩
      intro hle
      have h3 := (ih budget).2.2 hle
      exact ⟨by rw [h3.1], h3.2⟩

/-- When the write budget covers every write of an iteration, the
failing-model iteration behaves exactly like the normal one and consumes
one budget unit per write. -/
theorem stepIterF_enough (cfg : Config) (st : ConsumerState) (ts : Nat)
    (ev : QEvent) (budget : Nat)
    (h : (stepLog (stepIter cfg st ts ev)).length ≤ budget) :
    stepIterF cfg st ts ev budget =
      (stepIter cfg st ts ev,
        budget - (stepLog (stepIter cfg st ts ev)).length) := by
  cases ev with
  | interruptEv => simp [stepIterF, stepIter, stepLog]
  | sentinelEv =>
    have hlen : (stepLog (stepIter cfg st ts .sentinelEv)).length =
        st.data_dict.length := by
      simp [stepIter, stepLog, flushAll]
    rw [hlen] at h
    have hf := flushAllF_spec st.data_dict budget
    have hcr : (flushAllF budget st.data_dict).2.2 = false := by
      rw [hf.2.1]; exact decide_eq_false (by omega)
    simp only [stepIterF, stepIter, hcr, if_neg Bool.false_ne_true, stepLog,
      hlen]
    rw [hf.1, hf.2.2 h,
      List.take_of_length_le (by simpa [flushAll] using h)]
    simp [flushAll]
  | emptyEv =>
    by_cases hts : ts = st.last_timestamp
    · simp [stepIterF, stepIter, runSweep, runSweepF, if_pos hts, stepLog]
    · have hlen : (stepLog (stepIter cfg st ts .emptyEv)).length =
          (st.data_dict.filter (fun kv => staleCheck ts kv.2)).length := by
        simp [stepIter, stepLog, runSweep, if_neg hts]
      rw [hlen] at h
      have hsw := sweepDictF_spec ts st.data_dict budget
      have hcr : (sweepDictF ts budget st.data_dict).2.2.2 = false := by
        rw [hsw.2.1]; exact decide_eq_false (by omega)
      obtain ⟨hkeep, hbud⟩ := hsw.2.2 h
      simp only [stepIterF, stepIter, runSweepF, runSweep, if_neg hts, hcr,
        if_neg Bool.false_ne_true, stepLog, hlen]
      rw [hsw.1, hkeep, hbud,
        List.take_of_length_le (by simpa using h)]
      simp
  | entry e =>
    by_cases hrej : e.distance < cfg.dist_low ∨ e.distance > cfg.dist_high
    · simp [stepIterF, stepIter, if_pos hrej, stepLog]
    · by_cases hts : ts = st.last_timestamp
      · by_cases hw : cfg.write_stream
        · have hlen : (stepLog (stepIter cfg st ts (.entry e))).length = 1 := by
            simp [stepIter, stepLog, runSweep, if_neg hrej, hts, hw]
          rw [hlen] at h
          obtain ⟨b, rfl⟩ : ∃ b, budget = b + 1 := ⟨budget - 1, by omega⟩
          have hcond : ¬(cfg.write_stream = true ∧ b + 1 = 0) := by simp
          simp [stepIterF, stepIter, runSweepF, runSweep, if_neg hrej, hts,
            if_neg hcond, hw, stepLog]
        · have hwf : cfg.write_stream = false := by
            revert hw; cases cfg.write_stream <;> simp
          have hcond : ¬(cfg.write_stream = true ∧ budget = 0) := by
            simp [hwf]
          simp [stepIterF, stepIter, runSweepF, runSweep, if_neg hrej, hts,
            if_neg hcond, hwf, stepLog]
      · by_cases hw : cfg.write_stream
        · have hlen : (stepLog (stepIter cfg st ts (.entry e))).length =
              1 + ((dictAppend st.data_dict e.threat_id
                (sampleOf cfg ts e)).filter
                  (fun kv => staleCheck ts kv.2)).length := by
            simp [stepIter, stepLog, runSweep, if_neg hts, if_neg hrej, hw]
            omega
          rw [hlen] at h
          obtain ⟨b, rfl⟩ : ∃ b, budget = b + 1 := ⟨budget - 1, by omega⟩
          have hcond : ¬(cfg.write_stream = true ∧ b + 1 = 0) := by simp
          have hsw := sweepDictF_spec ts (dictAppend st.data_dict e.threat_id
            (sampleOf cfg ts e)) b
          have hcr : (sweepDictF ts b (dictAppend st.data_dict e.threat_id
              (sampleOf cfg ts e))).2.2.2 = false := by
            rw [hsw.2.1]; exact decide_eq_false (by omega)
          obtain ⟨hkeep, hbud⟩ := hsw.2.2 (by omega)
          simp only [stepIterF, stepIter, runSweepF, runSweep, if_neg hrej,
            if_neg hts, if_neg hcond, if_pos hw, stepLog,
            Nat.add_sub_cancel, hcr, if_neg Bool.false_ne_true]
          rw [hsw.1, hkeep, hbud,
            List.take_of_length_le (by simpa using (by omega : ((dictAppend
              st.data_dict e.threat_id (sampleOf cfg ts e)).filter
                (fun kv => staleCheck ts kv.2)).length ≤ b))]
          simp [hw]
        · have hwf : cfg.write_stream = false := by
            revert hw; cases cfg.write_stream <;> simp
          have hlen : (stepLog (stepIter cfg st ts (.entry e))).length =
              ((dictAppend st.data_dict e.threat_id
                (sampleOf cfg ts e)).filter
                  (fun kv => staleCheck ts kv.2)).length := by
            simp [stepIter, stepLog, runSweep, if_neg hts, if_neg hrej, hwf]
          rw [hlen] at h
          have hcond : ¬(cfg.write_stream = true ∧ budget = 0) := by
            simp [hwf]
          have hsw := sweepDictF_spec ts (dictAppend st.data_dict e.threat_id
            (sampleOf cfg ts e)) budget
          have hcr : (sweepDictF ts budget (dictAppend st.data_dict
              e.threat_id (sampleOf cfg ts e))).2.2.2 = false := by
            rw [hsw.2.1]; exact decide_eq_false (by omega)
          obtain ⟨hkeep, hbud⟩ := hsw.2.2 h
          simp only [stepIterF, stepIter, runSweepF, runSweep, if_neg hrej,
            if_neg hts, if_neg hcond, hwf, Bool.false_eq_true, if_false,
            stepLog, hcr, if_neg Bool.false_ne_true]
          rw [hsw.1, hkeep, hbud, List.take_of_length_le (by simpa using h)]
          simp

/-- When the write budget runs out inside an iteration, the failing
iteration stops the loop with the crash: it emits exactly the first
`budget` writes of the normal iteration and the console lines the
normal iteration would print before the failing write. -/
theorem stepIterF_crash (cfg : Config) (st : ConsumerState) (ts : Nat)
    (ev : QEvent) (budget : Nat)
    (h : budget < (stepLog (stepIter cfg st ts ev)).length) :
    ∃ st2, (stepIterF cfg st ts ev budget).1 =
      .stop .crashed st2
        ⟨(stepLog (stepIter cfg st ts ev)).take budget,
          stepPrinted (stepIter cfg st ts ev)⟩ := by
  cases ev with
  | interruptEv => simp [stepIter, stepLog] at h
  | sentinelEv =>
    have hlen : (stepLog (stepIter cfg st ts .sentinelEv)).length =
        st.data_dict.length := by
      simp [stepIter, stepLog, flushAll]
    rw [hlen] at h
    have hf := flushAllF_spec st.data_dict budget
    have hcr : (flushAllF budget st.data_dict).2.2 = true := by
      rw [hf.2.1]; exact decide_eq_true h
    refine ⟨st, ?_⟩
    simp only [stepIterF, stepIter, hcr, stepLog, stepPrinted]
    simp [hf.1]
  | emptyEv =>
    by_cases hts : ts = st.last_timestamp
    · simp [stepIter, stepLog, runSweep, if_pos hts] at h
    · have hlen : (stepLog (stepIter cfg st ts .emptyEv)).length =
          (st.data_dict.filter (fun kv => staleCheck ts kv.2)).length := by
        simp [stepIter, stepLog, runSweep, if_neg hts]
      rw [hlen] at h
      have hsw := sweepDictF_spec ts st.data_dict budget
      have hcr : (sweepDictF ts budget st.data_dict).2.2.2 = true := by
        rw [hsw.2.1]; exact decide_eq_true h
      refine ⟨⟨(sweepDictF ts budget st.data_dict).1, ts⟩, ?_⟩
      simp only [stepIterF, stepIter, runSweepF, runSweep, if_neg hts, hcr,
        stepLog, stepPrinted]
      simp [hsw.1]
  | entry e =>
    by_cases hrej : e.distance < cfg.dist_low ∨ e.distance > cfg.dist_high
    · simp [stepIter, stepLog, if_pos hrej] at h
    · by_cases hts : ts = st.last_timestamp
      · by_cases hw : cfg.write_stream
        · have hlen : (stepLog (stepIter cfg st ts (.entry e))).length = 1 := by
            simp [stepIter, stepLog, runSweep, if_neg hrej, hts, hw]
          rw [hlen] at h
          obtain rfl : budget = 0 := by omega
          refine ⟨st, ?_⟩
          simp [stepIterF, stepIter, runSweep, if_neg hrej, hts, hw, stepLog,
            stepPrinted]
        · have hwf : cfg.write_stream = false := by
            revert hw; cases cfg.write_stream <;> simp
          have hlen : (stepLog (stepIter cfg st ts (.entry e))).length = 0 := by
            simp [stepIter, stepLog, runSweep, if_neg hrej, hts, hwf]
          omega
      · by_cases hw : cfg.write_stream
        · cases budget with
          | zero =>
            refine ⟨st, ?_⟩
            simp [stepIterF, stepIter, runSweep, if_neg hrej, if_neg hts, hw,
              stepLog, stepPrinted]
          | succ b =>
            have hlen : (stepLog (stepIter cfg st ts (.entry e))).length =
                1 + ((dictAppend st.data_dict e.threat_id
                  (sampleOf cfg ts e)).filter
                    (fun kv => staleCheck ts kv.2)).length := by
              simp [stepIter, stepLog, runSweep, if_neg hts, if_neg hrej, hw]
              omega
            rw [hlen] at h
            have hcond : ¬(cfg.write_stream = true ∧ b + 1 = 0) := by simp
            have hsw := sweepDictF_spec ts (dictAppend st.data_dict
              e.threat_id (sampleOf cfg ts e)) b
            have hcr : (sweepDictF ts b (dictAppend st.data_dict e.threat_id
                (sampleOf cfg ts e))).2.2.2 = true := by
              rw [hsw.2.1]; exact decide_eq_true (by omega)
            refine ⟨⟨(sweepDictF ts b (dictAppend st.data_dict e.threat_id
              (sampleOf cfg ts e))).1, ts⟩, ?_⟩
            simp only [stepIterF, stepIter, runSweepF, runSweep, if_neg hrej,
              if_neg hts, if_neg hcond, if_pos hw, Nat.add_sub_cancel, hcr,
              stepLog, stepPrinted, hw]
            simp [hsw.1, hcr, List.take_succ_cons]
        · have hwf : cfg.write_stream = false := by
            revert hw; cases cfg.write_stream <;> simp
          have hlen : (stepLog (stepIter cfg st ts (.entry e))).length =
              ((dictAppend st.data_dict e.threat_id
                (sampleOf cfg ts e)).filter
                  (fun kv => staleCheck ts kv.2)).length := by
            simp [stepIter, stepLog, runSweep, if_neg hts, if_neg hrej, hwf]
          rw [hlen] at h
          have hcond : ¬(cfg.write_stream = true ∧ budget = 0) := by
            simp [hwf]
          have hsw := sweepDictF_spec ts (dictAppend st.data_dict e.threat_id
            (sampleOf cfg ts e)) budget
          have hcr : (sweepDictF ts budget (dictAppend st.data_dict
              e.threat_id (sampleOf cfg ts e))).2.2.2 = true := by
            rw [hsw.2.1]; exact decide_eq_true h
          refine ⟨⟨(sweepDictF ts budget (dictAppend st.data_dict e.threat_id
            (sampleOf cfg ts e))).1, ts⟩, ?_⟩
          simp only [stepIterF, stepIter, runSweepF, runSweep, if_neg hrej,
            if_neg hts, if_neg hcond, hwf, Bool.false_eq_true, if_false,
            hcr, stepLog, stepPrinted]
          simp [hsw.1]

/-- C6 amended: a failing summary or trace write is not contained.  In
a run whose write attempts start failing after `budget` successful
writes, the loop performs exactly the first `budget` writes of the
normal run and then the uncaught exception terminates the consumer: the
run that still needed writes ends in the crash instead of continuing
with only that one record lost. -/
theorem runFromF_budget_cut (cfg : Config) (input : List (Nat × QEvent)) :
    ∀ (st : ConsumerState) (budget : Nat),
      (runFromF cfg st budget input).log =
        (runFrom cfg st input).log.take budget ∧
      ((runFrom cfg st input).log.length ≤ budget →
        runFromF cfg st budget input = runFrom cfg st input) ∧
      (budget < (runFrom cfg st input).log.length →
        (runFromF cfg st budget input).reason = .crashed) := by
  induction input with
  | nil =>
    intro st budget
    refine ⟨by simp [runFromF, runFrom], fun _ => rfl, fun h => ?_⟩
    simp [runFrom] at h
  | cons hd rest ih =>
    obtain ⟨ts, ev⟩ := hd
    intro st budget
    by_cases hk : (stepLog (stepIter cfg st ts ev)).length ≤ budget
    · have hstep := stepIterF_enough cfg st ts ev budget hk
      cases hs : stepIter cfg st ts ev with
      | stop r st2 out =>
        rw [hs] at hstep
        simp only [stepLog] at hstep
        rw [hs, stepLog] at hk
        refine ⟨?_, fun _ => ?_, fun hcontra => ?_⟩
        · simp only [runFromF, hstep, runFrom, hs]
          rw [List.take_of_length_le hk]
        · simp only [runFromF, hstep, runFrom, hs]
        · simp only [runFrom, hs] at hcontra
          omega
      | next st2 out =>
        rw [hs] at hstep
        simp only [stepLog] at hstep
        rw [hs, stepLog] at hk
        have ht := ih st2 (budget - (out.log).length)
        refine ⟨?_, fun hle => ?_, fun hcontra => ?_⟩
        · simp only [runFromF, hstep, runFrom, hs]
          rw [ht.1, List.take_append_eq_append_take,
            List.take_of_length_le hk]
        · simp only [runFrom, hs, List.length_append] at hle
          have hteq := ht.2.1 (by omega)
          simp only [runFromF, hstep, runFrom, hs, hteq]
        · simp only [runFrom, hs, List.length_append] at hcontra
          have htr := ht.2.2 (by omega)
          simp only [runFromF, hstep, runFrom, hs, htr]
    · have hlt : budget < (stepLog (stepIter cfg st ts ev)).length := by
        omega
      obtain ⟨st2, hcrash⟩ := stepIterF_crash cfg st ts ev budget hlt
      rcases hsf : stepIterF cfg st ts ev budget with ⟨res, b2⟩
      rw [hsf] at hcrash
      simp only at hcrash
      subst hcrash
      cases hs : stepIter cfg st ts ev with
      | stop r st3 out =>
        rw [hs, stepLog] at hlt
        refine ⟨?_, fun hle => ?_, fun _ => ?_⟩
        · simp only [runFromF, hsf, runFrom, hs, stepLog]
        · simp only [runFrom, hs] at hle
          omega
        · simp only [runFromF, hsf]
      | next st3 out =>
        rw [hs, stepLog] at hlt
        refine ⟨?_, fun hle => ?_, fun _ => ?_⟩
        · simp only [runFromF, hsf, runFrom, hs, stepLog]
          rw [List.take_append_eq_append_take,
            Nat.sub_eq_zero_of_le (by omega), List.take_zero,
            List.append_nil]
        · simp only [runFrom, hs, List.length_append] at hle
          omega
        · simp only [runFromF, hsf]

/-- C6 counterexample: with tracing enabled and every write failing
(permission denied from the start), the first accepted detection's trace
write raises inside the `try` block, no handler catches it, and the
consumer dies: the sample is not appended, the queued sentinel is never
consumed and the summary that the normal run writes never appears.  The
pipeline does not keep running and more than that single write is lost. -/
theorem write_failure_not_contained :
    (runFromF cfgTrace ⟨[], 5⟩ 0
      [(6, .entry ⟨1, 20, 50⟩), (7, .sentinelEv)]).reason = .crashed ∧
    (runFromF cfgTrace ⟨[], 5⟩ 0
      [(6, .entry ⟨1, 20, 50⟩), (7, .sentinelEv)]).log = [] ∧
    (runFromF cfgTrace ⟨[], 5⟩ 0
      [(6, .entry ⟨1, 20, 50⟩), (7, .sentinelEv)]).state.data_dict = [] ∧
    flushedOf (runFrom cfgTrace ⟨[], 5⟩
      [(6, .entry ⟨1, 20, 50⟩), (7, .sentinelEv)]).log ≠ [] := by
  with_unfolding_all decide

/-- C6 amended witness: with a budget of one successful write, the trace
line is written, the sentinel flush write fails, and the run crashes
having performed exactly the first write of the normal run. -/
theorem runFromF_budget_cut_spot :
    (runFromF cfgTrace ⟨[], 5⟩ 1
        [(6, .entry ⟨1, 20, 50⟩), (7, .sentinelEv)]).log =
      (runFrom cfgTrace ⟨[], 5⟩
        [(6, .entry ⟨1, 20, 50⟩), (7, .sentinelEv)]).log.take 1 ∧
    1 < (runFrom cfgTrace ⟨[], 5⟩
      [(6, .entry ⟨1, 20, 50⟩), (7, .sentinelEv)]).log.length ∧
    (runFromF cfgTrace ⟨[], 5⟩ 1
      [(6, .entry ⟨1, 20, 50⟩), (7, .sentinelEv)]).reason = .crashed :=
  ⟨(runFromF_budget_cut cfgTrace [(6, .entry ⟨1, 20, 50⟩), (7, .sentinelEv)]
      ⟨[], 5⟩ 1).1,
    by with_unfolding_all decide,
    (runFromF_budget_cut cfgTrace [(6, .entry ⟨1, 20, 50⟩), (7, .sentinelEv)]
      ⟨[], 5⟩ 1).2.2 (by with_unfolding_all decide)⟩

end RadarLogger
